import Mathlib

/-!
Verification of the VIDSPACE business-logic core (src/app.py) against its
natural-language specification.

The Python program keeps its state in four document collections (local JSON
fallback of the `Database` wrapper, src/app.py lines 96-171): `accounts`,
`videos`, `interactions` and `messages`.  Each collection is a dictionary in
insertion order whose values are the documents; `get_one(collection, key,
value)` scans the values and returns the first document whose field `key`
equals `value`; `update(collection, key, value, partial)` replaces the given
fields of the first matching document; `insert(collection, doc)` stores a
document under its identity key (a fresh key appends at the end).  We embed a
collection as a Lean `List` of records, `get_one` as `List.find?`,
`update` as `updateFirst`, and a fresh `insert` as appending at the end.

Python integers are unbounded, so counters are `Int`.  Timestamps produced by
`datetime.now().isoformat()` and fresh identifiers produced by `create_id`
are side effects of the environment; they are threaded through the embedded
functions as explicit `String` parameters.  Python compares strings
lexicographically by code point; `charListLt` / `charListLe` below embed that
comparison on the lists of code points (`Char.toNat`).
-/

/-- Embedding of a notification entry (src/app.py lines 312-318). -/
structure Notification where
  text : String
  timestamp : String
  read : Bool
  link_type : Option String
  link_id : Option String
deriving DecidableEq

/-- Embedding of a comment entry (src/app.py lines 415-419). -/
structure Comment where
  username : String
  text : String
  timestamp : String
deriving DecidableEq

/-- Embedding of a video document (src/app.py lines 347-357). -/
structure Video where
  id : String
  username : String
  caption : String
  hashtags : String
  video_data : String
  timestamp : String
  likes : Int
  views : Int
  comments : List Comment
deriving DecidableEq

/-- Embedding of a per-account interaction document (src/app.py line 391). -/
structure Interaction where
  username : String
  likes : List String
  saved : List String
deriving DecidableEq

/-- Embedding of a message document (src/app.py lines 430-439). -/
structure Message where
  id : String
  chat_id : String
  sender : String
  recipient : String
  text : String
  video_id : Option String
  timestamp : String
  read : Bool
deriving DecidableEq

/-- Embedding of an account document (src/app.py lines 285-294). -/
structure Account where
  username : String
  password : String
  created : String
  bio : String
  profile_pic : Option String
  followers : List String
  following : List String
  notifications : List Notification
deriving DecidableEq

/-- The whole persisted state: the four document collections used by the
business-logic functions. -/
structure DB where
  accounts : List Account
  videos : List Video
  interactions : List Interaction
  messages : List Message
deriving DecidableEq

/-- `db.update(collection, key, value, partial)` on the local JSON store
(src/app.py lines 154-163): apply `f` to the first element satisfying `p`,
leave everything else unchanged. -/
def updateFirst {α : Type} (p : α → Bool) (f : α → α) : List α → List α
  | [] => []
  | x :: xs => if p x then f x :: xs else x :: updateFirst p f xs

/-- Python's `l[-n:]`: the last `min n l.length` elements of `l`. -/
def lastN {α : Type} (n : Nat) (l : List α) : List α :=
  l.drop (l.length - n)

/-- `db.update('accounts', 'username', u, ...)`. -/
def db_update_account (u : String) (f : Account → Account) (s : DB) : DB :=
  { s with accounts := updateFirst (fun a => a.username == u) f s.accounts }

/-- `db.update('interactions', 'username', u, ...)`. -/
def db_update_interaction (u : String) (f : Interaction → Interaction) (s : DB) : DB :=
  { s with interactions := updateFirst (fun i => i.username == u) f s.interactions }

/-- `db.update('videos', 'id', vid, ...)`. -/
def db_update_video (vid : String) (f : Video → Video) (s : DB) : DB :=
  { s with videos := updateFirst (fun v => v.id == vid) f s.videos }

/-- `db.get_one('accounts', 'username', u)` (src/app.py lines 136-143). -/
def findAccount (s : DB) (u : String) : Option Account :=
  s.accounts.find? (fun a => a.username == u)

/-- `account.get('following', []) if account else []`: the following list the
code reads in `get_feed_videos` (src/app.py lines 374-375) and renders on the
profile page. -/
def followingOf (s : DB) (u : String) : List String :=
  match findAccount s u with
  | some account => account.following
  | none => []

/-- The followers list of an account, `[]` if the account does not exist. -/
def followersOf (s : DB) (u : String) : List String :=
  match findAccount s u with
  | some account => account.followers
  | none => []

/-- The notification log of an account, `[]` if the account does not exist. -/
def notificationsOf (s : DB) (u : String) : List Notification :=
  match findAccount s u with
  | some account => account.notifications
  | none => []

/-- The liked-content list of an account's interaction record, `[]` if the
record does not exist (mirrors `interactions.get('likes', [])` read at
src/app.py lines 654-655). -/
def userLikes (s : DB) (u : String) : List String :=
  match s.interactions.find? (fun i => i.username == u) with
  | some inter => inter.likes
  | none => []

/-- The like counter of a content item, `none` if the item does not exist. -/
def likeCount (s : DB) (vid : String) : Option Int :=
  (s.videos.find? (fun v => v.id == vid)).map (fun v => v.likes)

/-- Number of distinct accounts whose interaction record's liked list
contains `video_id` (interaction records are keyed by username, one per
account). -/
def distinctLikers (inters : List Interaction) (video_id : String) : Nat :=
  inters.countP (fun i => decide (video_id ∈ i.likes))

/-- `hashlib.sha256(password.encode()).hexdigest()` (src/app.py lines
255-256).  The digest function itself is a Python-library external; it is
embedded as an injective tagging function, since every claim about the code
depends only on whether two digests are equal. -/
def hash_password (password : String) : String :=
  "sha256:" ++ password

/-- `login` (src/app.py lines 299-305). -/
def login (username password : String) (s : DB) : Bool × String :=
  match findAccount s username with
  | none => (false, "Username not found")
  | some account =>
    if account.password ≠ hash_password password then (false, "Incorrect password")
    else (true, "Login successful!")

/-- `add_notification` (src/app.py lines 307-321): append an unread entry to
the account's log and keep the last 50 entries (`notifications[-50:]`).
`now` is the value of `datetime.now().isoformat()`. -/
def add_notification (now username notification_text : String)
    (link_type link_id : Option String) (s : DB) : DB :=
  match findAccount s username with
  | none => s
  | some account =>
    let notifications := lastN 50 (account.notifications ++
      [{ text := notification_text, timestamp := now, read := false,
         link_type := link_type, link_id := link_id }])
    db_update_account username (fun a => { a with notifications := notifications }) s

/-- Body of `toggle_like` after the interaction record has been fetched or
created (src/app.py lines 394-409).  `inter` is the local `interactions`
variable; the two `db.update` calls at lines 408-409 write the locally
computed `likes` list and counter back. -/
def toggle_like_body (now username video_id : String) (inter : Interaction)
    (s : DB) : DB :=
  let likes := inter.likes
  match s.videos.find? (fun v => v.id == video_id) with
  | none => s
  | some video =>
    if video_id ∈ likes then
      let likes2 := likes.erase video_id
      let newCount : Int := max 0 (video.likes - 1)
      db_update_video video_id (fun v => { v with likes := newCount })
        (db_update_interaction username (fun i => { i with likes := likes2 }) s)
    else
      let likes2 := likes ++ [video_id]
      let newCount : Int := video.likes + 1
      let s2 :=
        if video.username ≠ username then
          add_notification now video.username
            ("@" ++ username ++ " liked your video!") (some "video") (some video_id) s
        else s
      db_update_video video_id (fun v => { v with likes := newCount })
        (db_update_interaction username (fun i => { i with likes := likes2 }) s2)

/-- `toggle_like` (src/app.py lines 387-409).  If the caller has no
interaction record yet, an empty one is inserted before the video lookup
(lines 389-392). -/
def toggle_like (now username video_id : String) (s : DB) : DB :=
  match s.interactions.find? (fun i => i.username == username) with
  | some inter => toggle_like_body now username video_id inter s
  | none =>
    let inter : Interaction := { username := username, likes := [], saved := [] }
    toggle_like_body now username video_id inter
      { s with interactions := s.interactions ++ [inter] }

/-- `follow_user` (src/app.py lines 473-489).  Both account documents are
fetched first; if the edge is absent, the two lists computed from the fetched
documents are written back by two `db.update` calls, then the followee is
notified. -/
def follow_user (now follower target : String) (s : DB) : DB :=
  match findAccount s follower, findAccount s target with
  | some follower_acc, some following_acc =>
    let following_list := follower_acc.following
    let followers_list := following_acc.followers
    if target ∈ following_list then s
    else
      let s1 := db_update_account follower
        (fun a => { a with following := following_list ++ [target] }) s
      let s2 := db_update_account target
        (fun a => { a with followers := followers_list ++ [follower] }) s1
      add_notification now target ("@" ++ follower ++ " started following you!")
        (some "profile") (some follower) s2
  | _, _ => s

/-- `unfollow_user` (src/app.py lines 491-504).  `following_list.remove` is
guarded by the membership test at line 499, but `followers_list.remove` is
not: when `follower` is missing from the followee's list Python raises an
uncaught `ValueError`, embedded as `none`. -/
def unfollow_user (follower target : String) (s : DB) : Option DB :=
  match findAccount s follower, findAccount s target with
  | some follower_acc, some following_acc =>
    let following_list := follower_acc.following
    let followers_list := following_acc.followers
    if target ∈ following_list then
      if follower ∈ followers_list then
        some (db_update_account target
          (fun a => { a with followers := followers_list.erase follower })
          (db_update_account follower
            (fun a => { a with following := following_list.erase target }) s))
      else none
    else some s
  | _, _ => some s

/-- `get_feed_videos` (src/app.py lines 369-385): videos by followed authors
first, then all videos sorted by like count descending with the ones already
shown removed.  Python's `sorted` is a stable sort; `List.insertionSort` is
also stable, so it computes the same list. -/
def get_feed_videos (username : String) (s : DB) : List Video :=
  let video_list := s.videos
  let following := followingOf s username
  let following_vids := video_list.filter (fun v => decide (v.username ∈ following))
  let trending_vids := List.insertionSort (fun a b => b.likes ≤ a.likes) video_list
  following_vids ++ trending_vids.filter (fun v => decide (v ∉ following_vids))

/-- Python's `<` on strings, on the lists of code points: lexicographic by
`Char.toNat`. -/
def charListLt : List Nat → List Nat → Bool
  | [], [] => false
  | [], _ :: _ => true
  | _ :: _, [] => false
  | a :: as, b :: bs => if a < b then true else if b < a then false else charListLt as bs

/-- Python's `<=` on strings, on the lists of code points. -/
def charListLe : List Nat → List Nat → Bool
  | [], _ => true
  | _ :: _, [] => false
  | a :: as, b :: bs => if a < b then true else if b < a then false else charListLe as bs

/-- The code-point list of a string. -/
def strKey (a : String) : List Nat :=
  a.data.map Char.toNat

/-- Python `a < b` on strings. -/
def str_lt (a b : String) : Bool :=
  charListLt (strKey a) (strKey b)

/-- Python `a <= b` on strings. -/
def str_le (a b : String) : Bool :=
  charListLe (strKey a) (strKey b)

/-- `"_".join(sorted([u1, u2]))` (src/app.py lines 428 and 447): the thread
key joins the two handles in ascending lexicographic order. -/
def chat_key (u1 u2 : String) : String :=
  if str_lt u2 u1 then u2 ++ "_" ++ u1 else u1 ++ "_" ++ u2

/-- `send_message` (src/app.py lines 427-444).  `msg_id` is the value of
`create_id("msg")` and `now` of `datetime.now().isoformat()`. -/
def send_message (msg_id now sender recipient message_text : String)
    (video_id : Option String) (s : DB) : DB :=
  let message : Message :=
    { id := msg_id, chat_id := chat_key sender recipient, sender := sender,
      recipient := recipient, text := message_text, video_id := video_id,
      timestamp := now, read := false }
  let s1 := { s with messages := s.messages ++ [message] }
  add_notification now recipient ("@" ++ sender ++ " sent you a message")
    (some "chat") (some sender) s1

/-- `get_chat_messages` (src/app.py lines 446-452): the messages of the
thread, sorted ascending by timestamp (`list.sort` is stable, as is
`List.insertionSort`). -/
def get_chat_messages (user1 user2 : String) (s : DB) : List Message :=
  let cid := chat_key user1 user2
  let chat_messages := s.messages.filter (fun m => m.chat_id == cid)
  List.insertionSort (fun m1 m2 => str_le m1.timestamp m2.timestamp = true) chat_messages

/-- The consistency invariant tying the like counters to the interaction
ledger (spec section 3): interaction records are keyed by distinct usernames,
liked lists are duplicate-free, video identifiers are distinct, and every
video's counter equals the number of distinct accounts that like it. -/
def Consistent (s : DB) : Prop :=
  (s.interactions.map (fun i => i.username)).Nodup ∧
  (∀ i ∈ s.interactions, i.likes.Nodup) ∧
  (s.videos.map (fun v => v.id)).Nodup ∧
  ∀ v ∈ s.videos, v.likes = (distinctLikers s.interactions v.id : Int)

/-- A sequence of `toggle_like` calls: each entry is
(timestamp, account, video id). -/
def applyToggles (ops : List (String × String × String)) (s : DB) : DB :=
  ops.foldl (fun st op => toggle_like op.1 op.2.1 op.2.2 st) s

/-- One `add_notification` call's environment-supplied arguments. -/
structure NotifCall where
  now : String
  text : String
  link_type : Option String
  link_id : Option String
deriving DecidableEq

/-- The notification entry a call appends. -/
def notifEntry (c : NotifCall) : Notification :=
  { text := c.text, timestamp := c.now, read := false,
    link_type := c.link_type, link_id := c.link_id }

/-- A sequence of `add_notification` calls to the same account. -/
def applyNotifications (u : String) (calls : List NotifCall) (s : DB) : DB :=
  calls.foldl (fun st c => add_notification c.now u c.text c.link_type c.link_id st) s

/-- Account constructor for concrete example states. -/
def mkAccount (u : String) (followers following : List String) : Account :=
  { username := u, password := hash_password "pw", created := "t0", bio := "",
    profile_pic := none, followers := followers, following := following,
    notifications := [] }

/-- Video constructor for concrete example states. -/
def mkVideo (vid owner : String) (likes : Int) : Video :=
  { id := vid, username := owner, caption := "c", hashtags := "", video_data := "d",
    timestamp := "t0", likes := likes, views := 0, comments := [] }

/-- A small concrete state used by the witnesses and counterexamples:
`bob` follows `alice` and likes her video `v1`. -/
def exDB : DB :=
  { accounts := [mkAccount "alice" ["bob"] [], mkAccount "bob" [] ["alice"]],
    videos := [mkVideo "v1" "alice" 1, mkVideo "v2" "bob" 0],
    interactions := [{ username := "bob", likes := ["v1"], saved := [] }],
    messages :=
      [{ id := "m1", chat_id := chat_key "alice" "bob", sender := "alice",
         recipient := "bob", text := "hi", video_id := none, timestamp := "t2",
         read := false },
       { id := "m2", chat_id := chat_key "bob" "alice", sender := "bob",
         recipient := "alice", text := "yo", video_id := none, timestamp := "t1",
         read := false }] }

theorem updateFirst_decomp {α : Type} {p : α → Bool} {l : List α} {a : α}
    (h : l.find? p = some a) :
    ∃ l1 l2, l = l1 ++ a :: l2 ∧ (∀ x ∈ l1, p x = false) ∧
      ∀ f : α → α, updateFirst p f l = l1 ++ f a :: l2 := by
  induction l with
  | nil => exact absurd h (by simp)
  | cons x xs ih =>
    by_cases hx : p x = true
    · rw [List.find?_cons_of_pos _ hx] at h
      obtain rfl : x = a := by injection h
      exact ⟨[], xs, rfl, by simp, fun f => by simp [updateFirst, hx]⟩
    · rw [List.find?_cons_of_neg _ (by simpa using hx)] at h
      obtain ⟨l1, l2, hl, hl1, hupd⟩ := ih h
      refine ⟨x :: l1, l2, by simp [hl], ?_, fun f => ?_⟩
      · intro y hy
        rcases List.mem_cons.mp hy with rfl | hy2
        · simpa using hx
        · exact hl1 y hy2
      · simp [updateFirst, hx, hupd f, List.cons_append]

theorem find?_append_of_none {α : Type} {p : α → Bool} {l1 l2 : List α}
    (h : ∀ x ∈ l1, p x = false) : (l1 ++ l2).find? p = l2.find? p := by
  rw [List.find?_append]
  have h0 : l1.find? p = none := List.find?_eq_none.mpr (fun x hx => by simp [h x hx])
  simp [h0]

theorem find?_updateFirst_self {α : Type} (key : α → String) (f : α → α)
    (hf : ∀ x, key (f x) = key x) (u : String) (l : List α) :
    (updateFirst (fun x => key x == u) f l).find? (fun x => key x == u)
      = (l.find? (fun x => key x == u)).map f := by
  induction l with
  | nil => rfl
  | cons x xs ih =>
    by_cases hx : (key x == u) = true
    · have hfx : (key (f x) == u) = true := by rw [hf]; exact hx
      simp [updateFirst, hx, List.find?_cons, hfx]
    · have hx2 : (key x == u) = false := by simpa using hx
      have hfx2 : (key (f x) == u) = false := by rw [hf]; exact hx2
      simp [updateFirst, hx, List.find?_cons, hx2, hfx2, ih]

theorem find?_updateFirst_other {α : Type} (key : α → String) (f : α → α)
    (hf : ∀ x, key (f x) = key x) (u w : String) (hne : w ≠ u) (l : List α) :
    (updateFirst (fun x => key x == u) f l).find? (fun x => key x == w)
      = l.find? (fun x => key x == w) := by
  induction l with
  | nil => rfl
  | cons x xs ih =>
    by_cases hx : (key x == u) = true
    · have hkx : key x = u := by simpa using hx
      have hqx : (key x == w) = false := by
        simp [hkx]; exact fun h => hne h.symm
      have hqfx : (key (f x) == w) = false := by rw [hf]; exact hqx
      simp [updateFirst, hx, List.find?_cons, hqx, hqfx]
    · by_cases hq : (key x == w) = true
      · simp [updateFirst, hx, List.find?_cons, hq]
      · have hq2 : (key x == w) = false := by simpa using hq
        simp [updateFirst, hx, List.find?_cons, hq2, ih]

theorem map_updateFirst {α β : Type} (g : α → β) (p : α → Bool) (f : α → α)
    (hf : ∀ x, g (f x) = g x) (l : List α) :
    (updateFirst p f l).map g = l.map g := by
  induction l with
  | nil => rfl
  | cons x xs ih =>
    by_cases hx : p x = true
    · simp [updateFirst, hx, hf]
    · simp [updateFirst, hx, ih]

theorem countP_updateFirst {α : Type} {p : α → Bool} {l : List α} {a : α}
    (q : α → Bool) (f : α → α) (h : l.find? p = some a) :
    (updateFirst p f l).countP q + (if q a then 1 else 0)
      = l.countP q + (if q (f a) then 1 else 0) := by
  obtain ⟨l1, l2, hl, -, hupd⟩ := updateFirst_decomp h
  rw [hupd f, hl, List.countP_append, List.countP_append, List.countP_cons,
    List.countP_cons]
  omega

theorem add_notification_videos (now u t : String) (lt li : Option String) (s : DB) :
    (add_notification now u t lt li s).videos = s.videos := by
  unfold add_notification
  cases findAccount s u <;> rfl

theorem add_notification_interactions (now u t : String) (lt li : Option String)
    (s : DB) :
    (add_notification now u t lt li s).interactions = s.interactions := by
  unfold add_notification
  cases findAccount s u <;> rfl

theorem findAccount_db_update (u w : String) (f : Account → Account)
    (hf : ∀ a, (f a).username = a.username) (s : DB) :
    findAccount (db_update_account u f s) w
      = if w = u then (findAccount s u).map f else findAccount s w := by
  by_cases h : w = u
  · subst h
    simpa [findAccount, db_update_account] using
      find?_updateFirst_self Account.username f hf w s.accounts
  · simpa [findAccount, db_update_account, h] using
      find?_updateFirst_other Account.username f hf u w h s.accounts

theorem findAccount_add_notification_other (now t ntext : String)
    (lt li : Option String) (s : DB) (w : String) (hw : w ≠ t) :
    findAccount (add_notification now t ntext lt li s) w = findAccount s w := by
  cases h : findAccount s t with
  | none => simp only [add_notification, h]
  | some a =>
    simp only [add_notification, h]
    rw [findAccount_db_update t w]
    · rw [if_neg hw]
    · intro x; rfl

theorem findAccount_add_notification_self (now t ntext : String)
    (lt li : Option String) (s : DB) (a : Account)
    (h : findAccount s t = some a) :
    ∃ n, findAccount (add_notification now t ntext lt li s) t
      = some { a with notifications := n } := by
  refine ⟨lastN 50 (a.notifications ++
    [{ text := ntext, timestamp := now, read := false,
       link_type := lt, link_id := li }]), ?_⟩
  simp only [add_notification, h]
  rw [findAccount_db_update t t]
  · rw [if_pos rfl, h, Option.map_some']
  · intro x; rfl

theorem toggle_like_body_of_no_video (now u vid : String) (inter : Interaction)
    (s : DB) (hv : s.videos.find? (fun v => v.id == vid) = none) :
    toggle_like_body now u vid inter s = s := by
  unfold toggle_like_body
  rw [hv]

/-- C10: when the caller has no interaction record and the video id is
unknown, `toggle_like` nevertheless inserts (and persists) an empty
interaction record for the caller before the content-existence check, so the
state is mutated on the not-found path. -/
theorem toggle_like_creates_interaction_record (now u vid : String) (s : DB)
    (hI : s.interactions.find? (fun i => i.username == u) = none)
    (hv : s.videos.find? (fun v => v.id == vid) = none) :
    (toggle_like now u vid s).interactions
      = s.interactions ++ [{ username := u, likes := [], saved := [] }] := by
  unfold toggle_like
  rw [hI]
  rw [toggle_like_body_of_no_video]
  exact hv

/-- Witness for `toggle_like_creates_interaction_record` at a concrete
state: `carol` has no interaction record and video `nope` does not exist. -/
theorem toggle_like_creates_interaction_record_witness :
    (toggle_like "t" "carol" "nope" exDB).interactions
      = exDB.interactions ++ [{ username := "carol", likes := [], saved := [] }] :=
  toggle_like_creates_interaction_record "t" "carol" "nope" exDB
    (by decide) (by decide)

/-- C4 counterexample: `toggle_like` on a missing video id does not leave the
state unchanged (it inserts an interaction record), and it signals no error
of any kind (the Python function just falls through and returns `None`). -/
theorem toggle_like_missing_video_mutates_state :
    toggle_like "t" "carol" "nope" exDB ≠ exDB := by decide

/-- C4 amended: on a missing video id, `toggle_like` returns silently with
all content and account records unchanged; the only mutation is that a
missing interaction record for the caller is created and persisted. -/
theorem toggle_like_missing_video_silent (now u vid : String) (s : DB)
    (hv : s.videos.find? (fun v => v.id == vid) = none) :
    (toggle_like now u vid s).videos = s.videos
    ∧ (toggle_like now u vid s).accounts = s.accounts
    ∧ ((s.interactions.find? (fun i => i.username == u)).isSome →
        toggle_like now u vid s = s)
    ∧ (s.interactions.find? (fun i => i.username == u) = none →
        (toggle_like now u vid s).interactions
          = s.interactions ++ [{ username := u, likes := [], saved := [] }]) := by
  cases hI : s.interactions.find? (fun i => i.username == u) with
  | some inter =>
    have ht : toggle_like now u vid s = s := by
      simp only [toggle_like, hI]
      exact toggle_like_body_of_no_video now u vid inter s hv
    rw [ht]
    exact ⟨rfl, rfl, fun _ => rfl, fun h => Option.noConfusion h⟩
  | none =>
    have ht : toggle_like now u vid s
        = { s with interactions :=
              s.interactions ++ [{ username := u, likes := [], saved := [] }] } := by
      simp only [toggle_like, hI]
      exact toggle_like_body_of_no_video now u vid _ _ hv
    rw [ht]
    exact ⟨rfl, rfl, fun h => by simp at h, fun _ => rfl⟩

/-- Witness for `toggle_like_missing_video_silent` at a concrete state. -/
theorem toggle_like_missing_video_silent_witness :
    (toggle_like "t" "carol" "nope" exDB).videos = exDB.videos
    ∧ (toggle_like "t" "carol" "nope" exDB).accounts = exDB.accounts
    ∧ ((exDB.interactions.find? (fun i => i.username == "carol")).isSome →
        toggle_like "t" "carol" "nope" exDB = exDB)
    ∧ (exDB.interactions.find? (fun i => i.username == "carol") = none →
        (toggle_like "t" "carol" "nope" exDB).interactions
          = exDB.interactions ++ [{ username := "carol", likes := [], saved := [] }]) :=
  toggle_like_missing_video_silent "t" "carol" "nope" exDB (by decide)

/-- C9 counterexample: the two failure cases of `login` are distinguishable:
an unknown handle yields the message "Username not found" while a wrong
secret for an existing handle yields "Incorrect password". -/
theorem login_error_messages_differ :
    (login "nobody" "x" exDB).1 = false
    ∧ (login "alice" "bad" exDB).1 = false
    ∧ login "nobody" "x" exDB ≠ login "alice" "bad" exDB := by decide

/-- C9 amended: `login` fails in both cases, but with distinct error values:
`(false, "Username not found")` for an unknown handle and
`(false, "Incorrect password")` for a wrong secret, so the two failures are
distinguishable by the caller (the spec itself flags this deviation). -/
theorem login_distinct_failure_messages (s : DB) (u1 u2 p1 p2 : String)
    (acc : Account) (h1 : findAccount s u1 = none)
    (h2 : findAccount s u2 = some acc)
    (hp : acc.password ≠ hash_password p2) :
    login u1 p1 s = (false, "Username not found")
    ∧ login u2 p2 s = (false, "Incorrect password")
    ∧ login u1 p1 s ≠ login u2 p2 s := by
  have e1 : login u1 p1 s = (false, "Username not found") := by
    simp only [login, h1]
  have e2 : login u2 p2 s = (false, "Incorrect password") := by
    simp only [login, h2]
    rw [if_pos hp]
  exact ⟨e1, e2, by rw [e1, e2]; decide⟩

/-- Witness for `login_distinct_failure_messages` at a concrete state. -/
theorem login_distinct_failure_messages_witness :
    login "nobody" "x" exDB = (false, "Username not found")
    ∧ login "alice" "bad" exDB = (false, "Incorrect password")
    ∧ login "nobody" "x" exDB ≠ login "alice" "bad" exDB :=
  login_distinct_failure_messages exDB "nobody" "alice" "x" "bad"
    (mkAccount "alice" ["bob"] []) (by decide) (by decide) (by decide)

/-- C2 counterexample: a self-follow is not a no-op: `follow_user` has no
self-follow guard, so `follow(alice, alice)` puts `alice` into both her own
following and followers lists. -/
theorem self_follow_not_noop :
    "alice" ∈ followingOf (follow_user "t" "alice" "alice" exDB) "alice"
    ∧ "alice" ∈ followersOf (follow_user "t" "alice" "alice" exDB) "alice" := by
  decide
/-- C2 amended: `follow_user` has no self-follow guard: when `A` is not yet
in its own following list, `follow(A, A)` adds `A` to both `A`'s following
list and `A`'s followers list (so the no-self-follow invariant is not
maintained by the code). -/
theorem self_follow_adds_edge (now A : String) (s : DB) (accA : Account)
    (hA : findAccount s A = some accA) (hmem : A ∉ accA.following) :
    A ∈ followingOf (follow_user now A A s) A
    ∧ A ∈ followersOf (follow_user now A A s) A := by
  have h1 : findAccount (db_update_account A
      (fun a => { a with following := accA.following ++ [A] }) s) A
      = some { accA with following := accA.following ++ [A] } := by
    rw [findAccount_db_update A A]
    · rw [if_pos rfl, hA]
      rfl
    · intro x; rfl
  have h2 : findAccount (db_update_account A
      (fun a => { a with followers := accA.followers ++ [A] })
      (db_update_account A
        (fun a => { a with following := accA.following ++ [A] }) s)) A
      = some { accA with
               following := accA.following ++ [A],
               followers := accA.followers ++ [A] } := by
    rw [findAccount_db_update A A]
    · rw [if_pos rfl, h1]
      rfl
    · intro x; rfl
  obtain ⟨n, h3⟩ := findAccount_add_notification_self now A
    ("@" ++ A ++ " started following you!") (some "profile") (some A) _ _ h2
  have hres : follow_user now A A s = add_notification now A
      ("@" ++ A ++ " started following you!") (some "profile") (some A)
      (db_update_account A
        (fun a => { a with followers := accA.followers ++ [A] })
        (db_update_account A
          (fun a => { a with following := accA.following ++ [A] }) s)) := by
    simp only [follow_user, hA]
    rw [if_neg hmem]
  rw [hres]
  constructor
  · simp only [followingOf, h3]
    simp
  · simp only [followersOf, h3]
    simp

/-- Witness for `self_follow_adds_edge` at a concrete state. -/
theorem self_follow_adds_edge_witness :
    "alice" ∈ followingOf (follow_user "t" "alice" "alice" exDB) "alice"
    ∧ "alice" ∈ followersOf (follow_user "t" "alice" "alice" exDB) "alice" :=
  self_follow_adds_edge "t" "alice" exDB (mkAccount "alice" ["bob"] [])
    (by decide) (by decide)

theorem lastN_of_le {α : Type} {n : Nat} {l : List α} (h : l.length ≤ n) :
    lastN n l = l := by
  unfold lastN
  rw [Nat.sub_eq_zero_of_le h, List.drop_zero]

theorem lastN_length_le {α : Type} (n : Nat) (l : List α) :
    (lastN n l).length ≤ n := by
  unfold lastN
  rw [List.length_drop]
  omega

theorem lastN_append_left {α : Type} (n : Nat) (a b : List α)
    (hb : n ≤ b.length) : lastN n (a ++ b) = lastN n b := by
  unfold lastN
  rw [List.length_append,
    show a.length + b.length - n = a.length + (b.length - n) by omega,
    List.drop_append]

theorem lastN_lastN_append {α : Type} (n : Nat) (l r : List α) :
    lastN n (lastN n l ++ r) = lastN n (l ++ r) := by
  by_cases h : l.length ≤ n
  · rw [lastN_of_le h]
  · have hlen : n ≤ (List.drop (l.length - n) l ++ r).length := by
      rw [List.length_append, List.length_drop]
      omega
    conv_rhs => rw [← List.take_append_drop (l.length - n) l, List.append_assoc]
    rw [lastN_append_left n _ _ hlen]
    rfl

theorem notificationsOf_add (now u ntext : String) (lt li : Option String)
    (s : DB) (a : Account) (h : findAccount s u = some a) :
    notificationsOf (add_notification now u ntext lt li s) u
      = lastN 50 (a.notifications ++
          [{ text := ntext, timestamp := now, read := false,
             link_type := lt, link_id := li }])
    ∧ (findAccount (add_notification now u ntext lt li s) u).isSome := by
  have hfind : findAccount (add_notification now u ntext lt li s) u
      = some { a with notifications := lastN 50 (a.notifications ++
          [{ text := ntext, timestamp := now, read := false,
             link_type := lt, link_id := li }]) } := by
    simp only [add_notification, h]
    rw [findAccount_db_update u u]
    · rw [if_pos rfl, h]
      rfl
    · intro x; rfl
  constructor
  · simp only [notificationsOf, hfind]
  · rw [hfind]; rfl

/-- C6: for an existing account whose log currently respects the bound,
any sequence of `add_notification` calls leaves the log equal to the last 50
entries of the full chronological append sequence: the length never exceeds
50, the oldest entries are evicted first, and the survivors keep their
chronological order. -/
theorem notification_log_bounded (u : String) (calls : List NotifCall) (s : DB)
    (a : Account) (hA : findAccount s u = some a)
    (hlen : a.notifications.length ≤ 50) :
    notificationsOf (applyNotifications u calls s) u
      = lastN 50 (a.notifications ++ calls.map notifEntry)
    ∧ (notificationsOf (applyNotifications u calls s) u).length ≤ 50 := by
  induction calls generalizing s a with
  | nil =>
    constructor
    · simp only [applyNotifications, List.foldl_nil, List.map_nil,
        List.append_nil, lastN_of_le hlen, notificationsOf, hA]
    · simp only [applyNotifications, List.foldl_nil, notificationsOf, hA]
      exact hlen
  | cons c rest ih =>
    obtain ⟨heq, hsome⟩ := notificationsOf_add c.now u c.text c.link_type c.link_id s a hA
    obtain ⟨a1, ha1⟩ := Option.isSome_iff_exists.mp hsome
    have ha1n : a1.notifications = lastN 50 (a.notifications ++ [notifEntry c]) := by
      have hv : notificationsOf (add_notification c.now u c.text c.link_type c.link_id s) u
          = a1.notifications := by
        simp only [notificationsOf, ha1]
      rw [← hv, heq, notifEntry]
    have hlen1 : a1.notifications.length ≤ 50 := by
      rw [ha1n]; exact lastN_length_le 50 _
    have happ : applyNotifications u (c :: rest) s
        = applyNotifications u rest
            (add_notification c.now u c.text c.link_type c.link_id s) := rfl
    rw [happ]
    obtain ⟨ih1, ih2⟩ := ih _ a1 ha1 hlen1
    refine ⟨?_, ih2⟩
    rw [ih1, ha1n, List.map_cons]
    rw [show a.notifications ++ notifEntry c :: List.map notifEntry rest
        = (a.notifications ++ [notifEntry c]) ++ List.map notifEntry rest by simp]
    exact lastN_lastN_append 50 _ _

/-- Witness for `notification_log_bounded` at a concrete state. -/
theorem notification_log_bounded_witness :
    notificationsOf (applyNotifications "alice"
        [⟨"t1", "n1", none, none⟩, ⟨"t2", "n2", some "video", some "v1"⟩] exDB) "alice"
      = lastN 50 ((mkAccount "alice" ["bob"] []).notifications
          ++ List.map notifEntry
              [⟨"t1", "n1", none, none⟩, ⟨"t2", "n2", some "video", some "v1"⟩])
    ∧ (notificationsOf (applyNotifications "alice"
        [⟨"t1", "n1", none, none⟩, ⟨"t2", "n2", some "video", some "v1"⟩] exDB) "alice").length
        ≤ 50 :=
  notification_log_bounded "alice"
    [⟨"t1", "n1", none, none⟩, ⟨"t2", "n2", some "video", some "v1"⟩] exDB
    (mkAccount "alice" ["bob"] []) (by decide) (by decide)

theorem charListLt_asymm : ∀ x y : List Nat,
    charListLt x y = true → charListLt y x = false
  | [], [], h => by simp [charListLt] at h
  | [], _ :: _, _ => by simp [charListLt]
  | _ :: _, [], h => by simp [charListLt] at h
  | a :: as, b :: bs, h => by
    simp only [charListLt] at h ⊢
    by_cases hab : a < b
    · have hba : ¬ b < a := by omega
      simp [hab, hba]
    · by_cases hba : b < a
      · simp [hab, hba] at h
      · simp [hab, hba] at h ⊢
        exact charListLt_asymm as bs h

theorem charListLt_conn : ∀ x y : List Nat,
    charListLt x y = false → charListLt y x = false → x = y
  | [], [], _, _ => rfl
  | [], _ :: _, h1, _ => by simp [charListLt] at h1
  | _ :: _, [], _, h2 => by simp [charListLt] at h2
  | a :: as, b :: bs, h1, h2 => by
    simp only [charListLt] at h1 h2
    by_cases hab : a < b
    · simp [hab] at h1
    · by_cases hba : b < a
      · simp [hab, hba] at h2
      · have hA : a = b := by omega
        simp [hab, hba] at h1 h2
        rw [hA, charListLt_conn as bs h1 h2]

theorem strKey_inj {a b : String} (h : strKey a = strKey b) : a = b := by
  unfold strKey at h
  have hchar : Function.Injective Char.toNat := fun c d hcd => by
    have h2 := congrArg Char.ofNat hcd
    rwa [Char.ofNat_toNat, Char.ofNat_toNat] at h2
  exact String.ext (List.map_injective_iff.mpr hchar h)

theorem str_lt_conn {a b : String} (h1 : str_lt a b = false)
    (h2 : str_lt b a = false) : a = b :=
  strKey_inj (charListLt_conn _ _ h1 h2)

theorem chat_key_comm (u1 u2 : String) : chat_key u1 u2 = chat_key u2 u1 := by
  unfold chat_key
  by_cases h1 : str_lt u2 u1 = true
  · have h2 : str_lt u1 u2 = false := charListLt_asymm _ _ h1
    rw [if_pos h1, if_neg (by simp [h2])]
  · have h1f : str_lt u2 u1 = false := by simpa using h1
    by_cases h2 : str_lt u1 u2 = true
    · rw [if_neg h1, if_pos h2]
    · have h2f : str_lt u1 u2 = false := by simpa using h2
      have he : u1 = u2 := str_lt_conn h2f h1f
      rw [he]

theorem charListLe_total : ∀ x y : List Nat,
    charListLe x y = true ∨ charListLe y x = true
  | [], _ => Or.inl rfl
  | _ :: _, [] => Or.inr rfl
  | a :: as, b :: bs => by
    simp only [charListLe]
    by_cases hab : a < b
    · left; simp [hab]
    · by_cases hba : b < a
      · right; simp [hab, hba]
      · simp [hab, hba]
        exact charListLe_total as bs

theorem charListLe_trans : ∀ x y z : List Nat, charListLe x y = true →
    charListLe y z = true → charListLe x z = true
  | [], _, _, _, _ => rfl
  | _ :: _, [], _, h1, _ => by simp [charListLe] at h1
  | _ :: _, _ :: _, [], _, h2 => by simp [charListLe] at h2
  | a :: as, b :: bs, c :: cs, h1, h2 => by
    simp only [charListLe] at h1 h2 ⊢
    by_cases hab : a < b
    · by_cases hbc : b < c
      · simp [show a < c by omega]
      · by_cases hcb : c < b
        · simp [hbc, hcb] at h2
        · simp [show a < c by omega]
    · by_cases hba : b < a
      · simp [hab, hba] at h1
      · by_cases hbc : b < c
        · simp [show a < c by omega]
        · by_cases hcb : c < b
          · simp [hbc, hcb] at h2
          · have hac : ¬ a < c := by omega
            have hca : ¬ c < a := by omega
            simp [hab, hba] at h1
            simp [hbc, hcb] at h2
            simp [hac, hca]
            exact charListLe_trans as bs cs h1 h2

theorem get_chat_messages_sorted (user1 user2 : String) (s : DB) :
    List.Sorted (fun m1 m2 : Message => str_le m1.timestamp m2.timestamp = true)
      (get_chat_messages user1 user2 s) := by
  haveI : IsTotal Message
      (fun m1 m2 : Message => str_le m1.timestamp m2.timestamp = true) :=
    ⟨fun m1 m2 => charListLe_total _ _⟩
  haveI : IsTrans Message
      (fun m1 m2 : Message => str_le m1.timestamp m2.timestamp = true) :=
    ⟨fun m1 m2 m3 => charListLe_trans _ _ _⟩
  exact List.sorted_insertionSort _ _

/-- C8: thread lookup is order-independent, `history(A,B) = history(B,A)`,
because the thread key joins the two handles in sorted order; and the
returned message sequence is sorted ascending by timestamp (Python string
comparison, i.e. lexicographic on code points). -/
theorem chat_history_symmetric_and_sorted (A B : String) (s : DB) :
    get_chat_messages A B s = get_chat_messages B A s
    ∧ List.Sorted (fun m1 m2 : Message => str_le m1.timestamp m2.timestamp = true)
        (get_chat_messages A B s) := by
  constructor
  · simp only [get_chat_messages]
    rw [chat_key_comm]
  · exact get_chat_messages_sorted A B s

theorem filter_tier_nodup {videos : List Video}
    (hids : (videos.map (fun v => v.id)).Nodup) (pf : Video → Bool)
    {T : List Video} (hT : T.Perm videos) :
    ((videos.filter pf
      ++ T.filter (fun v => decide (v ∉ videos.filter pf))).map
        (fun v => v.id)).Nodup := by
  rw [List.map_append, List.nodup_append]
  refine ⟨?_, ?_, ?_⟩
  · exact List.Nodup.sublist (List.Sublist.map _ (List.filter_sublist _)) hids
  · have hTid : ((T.map (fun v => v.id)).Perm (videos.map (fun v => v.id))) :=
      hT.map _
    exact List.Nodup.sublist (List.Sublist.map _ (List.filter_sublist _))
      (hTid.nodup_iff.mpr hids)
  · intro x hx1 hx2
    obtain ⟨a, haF, haid⟩ := List.mem_map.mp hx1
    obtain ⟨b, hbR, hbid⟩ := List.mem_map.mp hx2
    have hbnotF : b ∉ videos.filter pf :=
      of_decide_eq_true ((List.mem_filter.mp hbR).2)
    have haV : a ∈ videos := List.mem_of_mem_filter haF
    have hbV : b ∈ videos := hT.mem_iff.mp (List.mem_of_mem_filter hbR)
    have hab : a = b :=
      List.inj_on_of_nodup_map hids haV hbV (by rw [haid, hbid])
    exact hbnotF (hab ▸ haF)

theorem filter_tier_pairwise {videos : List Video} (pf : Video → Bool)
    {T : List Video} (hT : T.Perm videos) :
    (videos.filter pf
      ++ T.filter (fun v => decide (v ∉ videos.filter pf))).Pairwise
        (fun a b => pf b = true → pf a = true) := by
  rw [List.pairwise_append]
  refine ⟨?_, ?_, ?_⟩
  · exact List.pairwise_of_forall_mem_list
      (fun a ha b hb _ => List.of_mem_filter ha)
  · refine List.pairwise_of_forall_mem_list (fun a ha b hb hpfb => ?_)
    have hbnotF : b ∉ videos.filter pf :=
      of_decide_eq_true ((List.mem_filter.mp hb).2)
    have hbV : b ∈ videos := hT.mem_iff.mp (List.mem_of_mem_filter hb)
    exact absurd (List.mem_filter.mpr ⟨hbV, hpfb⟩) hbnotF
  · exact fun a ha b hb _ => List.of_mem_filter ha

/-- C7: the composed feed contains no duplicate content identifiers, and
every item authored by someone the viewer follows precedes every item that
is not (the trailing trending tier contains exactly the items whose author
the viewer does not follow, since all followed-author items already sit in
the leading tier and are deduplicated out of the trending tier). -/
theorem feed_nodup_and_tiered (s : DB) (u : String)
    (hids : (s.videos.map (fun v => v.id)).Nodup) :
    ((get_feed_videos u s).map (fun v => v.id)).Nodup
    ∧ (get_feed_videos u s).Pairwise
        (fun a b => b.username ∈ followingOf s u → a.username ∈ followingOf s u) := by
  constructor
  · exact filter_tier_nodup hids (fun v => decide (v.username ∈ followingOf s u))
      (List.perm_insertionSort _ _)
  · have hp := filter_tier_pairwise (fun v => decide (v.username ∈ followingOf s u))
      (List.perm_insertionSort (fun a b : Video => b.likes ≤ a.likes) s.videos)
    exact hp.imp (fun hab hb => of_decide_eq_true (hab (decide_eq_true hb)))

/-- Witness for `feed_nodup_and_tiered` at a concrete state. -/
theorem feed_nodup_and_tiered_witness :
    ((get_feed_videos "bob" exDB).map (fun v => v.id)).Nodup
    ∧ (get_feed_videos "bob" exDB).Pairwise
        (fun a b => b.username ∈ followingOf exDB "bob"
          → a.username ∈ followingOf exDB "bob") :=
  feed_nodup_and_tiered exDB "bob" (by decide)

theorem db_update_video_interactions (vid : String) (f : Video → Video) (s : DB) :
    (db_update_video vid f s).interactions = s.interactions := rfl

theorem db_update_interaction_videos (u : String) (f : Interaction → Interaction)
    (s : DB) : (db_update_interaction u f s).videos = s.videos := rfl

theorem findInteraction_db_update (u w : String) (f : Interaction → Interaction)
    (hf : ∀ i, (f i).username = i.username) (s : DB) :
    (db_update_interaction u f s).interactions.find? (fun i => i.username == w)
      = if w = u then (s.interactions.find? (fun i => i.username == u)).map f
        else s.interactions.find? (fun i => i.username == w) := by
  by_cases h : w = u
  · subst h
    simpa [db_update_interaction] using
      find?_updateFirst_self Interaction.username f hf w s.interactions
  · simpa [db_update_interaction, h] using
      find?_updateFirst_other Interaction.username f hf u w h s.interactions

theorem findVideo_db_update (vid w : String) (f : Video → Video)
    (hf : ∀ v, (f v).id = v.id) (s : DB) :
    (db_update_video vid f s).videos.find? (fun v => v.id == w)
      = if w = vid then (s.videos.find? (fun v => v.id == vid)).map f
        else s.videos.find? (fun v => v.id == w) := by
  by_cases h : w = vid
  · subst h
    simpa [db_update_video] using
      find?_updateFirst_self Video.id f hf w s.videos
  · simpa [db_update_video, h] using
      find?_updateFirst_other Video.id f hf vid w h s.videos

theorem toggle_like_body_spec (now u vid : String) (inter : Interaction) (s : DB)
    (video : Video) (hv : s.videos.find? (fun v => v.id == vid) = some video)
    (hI : s.interactions.find? (fun i => i.username == u) = some inter) :
    (toggle_like_body now u vid inter s).interactions.find?
        (fun i => i.username == u)
      = some (if vid ∈ inter.likes
          then { inter with likes := inter.likes.erase vid }
          else { inter with likes := inter.likes ++ [vid] })
    ∧ (toggle_like_body now u vid inter s).videos.find? (fun v => v.id == vid)
      = some (if vid ∈ inter.likes
          then { video with likes := max 0 (video.likes - 1) }
          else { video with likes := video.likes + 1 }) := by
  by_cases hm : vid ∈ inter.likes
  · have hbody : toggle_like_body now u vid inter s
        = db_update_video vid (fun v => { v with likes := max 0 (video.likes - 1) })
            (db_update_interaction u
              (fun i => { i with likes := inter.likes.erase vid }) s) := by
      simp only [toggle_like_body, hv]
      rw [if_pos hm]
    rw [hbody, if_pos hm, if_pos hm]
    constructor
    · rw [db_update_video_interactions, findInteraction_db_update u u]
      · rw [if_pos rfl, hI]
        rfl
      · intro i; rfl
    · rw [findVideo_db_update vid vid]
      · rw [if_pos rfl, db_update_interaction_videos, hv]
        rfl
      · intro v; rfl
  · have hbody : toggle_like_body now u vid inter s
        = db_update_video vid (fun v => { v with likes := video.likes + 1 })
            (db_update_interaction u
              (fun i => { i with likes := inter.likes ++ [vid] })
              (if video.username ≠ u then
                add_notification now video.username
                  ("@" ++ u ++ " liked your video!") (some "video") (some vid) s
               else s)) := by
      simp only [toggle_like_body, hv]
      rw [if_neg hm]
    have hs2i : (if video.username ≠ u then
        add_notification now video.username
          ("@" ++ u ++ " liked your video!") (some "video") (some vid) s
        else s).interactions = s.interactions := by
      split
      · exact add_notification_interactions _ _ _ _ _ _
      · rfl
    have hs2v : (if video.username ≠ u then
        add_notification now video.username
          ("@" ++ u ++ " liked your video!") (some "video") (some vid) s
        else s).videos = s.videos := by
      split
      · exact add_notification_videos _ _ _ _ _ _
      · rfl
    rw [hbody, if_neg hm, if_neg hm]
    constructor
    · rw [db_update_video_interactions, findInteraction_db_update u u]
      · rw [if_pos rfl, hs2i, hI]
        rfl
      · intro i; rfl
    · rw [findVideo_db_update vid vid]
      · rw [if_pos rfl, db_update_interaction_videos, hs2v, hv]
        rfl
      · intro v; rfl

theorem toggle_like_spec (now u vid : String) (s : DB) (video : Video)
    (hv : s.videos.find? (fun v => v.id == vid) = some video) :
    userLikes (toggle_like now u vid s) u
      = (if vid ∈ userLikes s u then (userLikes s u).erase vid
         else userLikes s u ++ [vid])
    ∧ likeCount (toggle_like now u vid s) vid
      = some (if vid ∈ userLikes s u then max 0 (video.likes - 1)
              else video.likes + 1) := by
  cases hI : s.interactions.find? (fun i => i.username == u) with
  | some inter =>
    have hUL : userLikes s u = inter.likes := by simp only [userLikes, hI]
    have hbody : toggle_like now u vid s = toggle_like_body now u vid inter s := by
      simp only [toggle_like, hI]
    obtain ⟨hIf, hVf⟩ := toggle_like_body_spec now u vid inter s video hv hI
    rw [hbody, hUL]
    constructor
    · simp only [userLikes, hIf]
      by_cases hm : vid ∈ inter.likes <;> simp [hm]
    · simp only [likeCount, hVf]
      by_cases hm : vid ∈ inter.likes <;> simp [hm]
  | none =>
    have hUL : userLikes s u = [] := by simp only [userLikes, hI]
    have hbody : toggle_like now u vid s
        = toggle_like_body now u vid { username := u, likes := [], saved := [] }
            { s with interactions := s.interactions
                ++ [{ username := u, likes := [], saved := [] }] } := by
      simp only [toggle_like, hI]
    have hI2 : ({ s with interactions := s.interactions
          ++ [{ username := u, likes := [], saved := [] }] } : DB).interactions.find?
            (fun i => i.username == u)
        = some { username := u, likes := [], saved := [] } := by
      show (s.interactions
          ++ [({ username := u, likes := [], saved := [] } : Interaction)]).find?
        (fun i => i.username == u) = _
      rw [List.find?_append, hI]
      simp [List.find?_cons]
    have hv2 : ({ s with interactions := s.interactions
          ++ [{ username := u, likes := [], saved := [] }] } : DB).videos.find?
            (fun v => v.id == vid) = some video := hv
    obtain ⟨hIf, hVf⟩ := toggle_like_body_spec now u vid
      { username := u, likes := [], saved := [] } _ video hv2 hI2
    rw [hbody, hUL]
    constructor
    · simp only [userLikes, hIf]
      simp
    · simp only [likeCount, hVf]
      simp

/-- C3: two consecutive `toggle_like` calls by the same account on the same
existing content restore the account's liked-set membership for that content
and the content's like counter to their original values (under the
reachable-state facts that the counter is non-negative, is at least 1 when
the item is already liked, and the liked list holds the item at most once). -/
theorem toggle_like_involutive (now1 now2 u vid : String) (s : DB) (video : Video)
    (hv : s.videos.find? (fun v => v.id == vid) = some video)
    (h0 : 0 ≤ video.likes)
    (h1 : vid ∈ userLikes s u → 1 ≤ video.likes)
    (hc : (userLikes s u).count vid ≤ 1) :
    ((vid ∈ userLikes (toggle_like now2 u vid (toggle_like now1 u vid s)) u)
       ↔ vid ∈ userLikes s u)
    ∧ likeCount (toggle_like now2 u vid (toggle_like now1 u vid s)) vid
       = likeCount s vid := by
  obtain ⟨hL1, hC1⟩ := toggle_like_spec now1 u vid s video hv
  have hks : likeCount s vid = some video.likes := by simp [likeCount, hv]
  by_cases hm : vid ∈ userLikes s u
  · rw [if_pos hm] at hL1 hC1
    unfold likeCount at hC1
    obtain ⟨video1, hv1f, hv1l⟩ := Option.map_eq_some'.mp hC1
    obtain ⟨hL2, hC2⟩ := toggle_like_spec now2 u vid _ video1 hv1f
    have hnm : vid ∉ userLikes (toggle_like now1 u vid s) u := by
      rw [hL1]
      intro hmem
      have hone := List.one_le_count_iff.mpr hm
      have hcnt : (userLikes s u).count vid = 1 := by omega
      have hzero : ((userLikes s u).erase vid).count vid = 0 := by
        rw [List.count_erase_self, hcnt]
      exact (List.count_eq_zero.mp hzero) hmem
    rw [if_neg hnm] at hL2 hC2
    constructor
    · rw [hL2, hL1]
      simp [hm]
    · rw [hC2, hks, hv1l]
      have h1v := h1 hm
      congr 1
      omega
  · rw [if_neg hm] at hL1 hC1
    unfold likeCount at hC1
    obtain ⟨video1, hv1f, hv1l⟩ := Option.map_eq_some'.mp hC1
    obtain ⟨hL2, hC2⟩ := toggle_like_spec now2 u vid _ video1 hv1f
    have hmem1 : vid ∈ userLikes (toggle_like now1 u vid s) u := by
      rw [hL1]; simp
    rw [if_pos hmem1] at hL2 hC2
    have herase : (userLikes s u ++ [vid]).erase vid = userLikes s u := by
      rw [List.erase_append_right _ hm]
      simp
    constructor
    · rw [hL2, hL1, herase]
    · rw [hC2, hks, hv1l]
      congr 1
      omega

/-- Witness for `toggle_like_involutive` at a concrete state: `bob` already
likes `v1` (counter 1); toggling twice restores both observables. -/
theorem toggle_like_involutive_witness :
    (("v1" ∈ userLikes (toggle_like "t2" "bob" "v1"
        (toggle_like "t1" "bob" "v1" exDB)) "bob")
       ↔ "v1" ∈ userLikes exDB "bob")
    ∧ likeCount (toggle_like "t2" "bob" "v1" (toggle_like "t1" "bob" "v1" exDB)) "v1"
       = likeCount exDB "v1" :=
  toggle_like_involutive "t1" "t2" "bob" "v1" exDB (mkVideo "v1" "alice" 1)
    (by decide) (by decide) (by decide) (by decide)

theorem findAccount_two_updates (A B : String) (hAB : A ≠ B)
    (fA fB : Account → Account)
    (hfA : ∀ a, (fA a).username = a.username)
    (hfB : ∀ a, (fB a).username = a.username)
    (s : DB) (accA accB : Account)
    (hA : findAccount s A = some accA) (hB : findAccount s B = some accB) :
    findAccount (db_update_account B fB (db_update_account A fA s)) A
      = some (fA accA)
    ∧ findAccount (db_update_account B fB (db_update_account A fA s)) B
      = some (fB accB) := by
  constructor
  · rw [findAccount_db_update B A fB hfB, if_neg hAB,
      findAccount_db_update A A fA hfA, if_pos rfl, hA, Option.map_some']
  · rw [findAccount_db_update B B fB hfB, if_pos rfl,
      findAccount_db_update A B fA hfA, if_neg (Ne.symm hAB), hB, Option.map_some']

theorem unfollow_user_spec (A B : String) (hAB : A ≠ B) (s1 : DB)
    (a1 b1 : Account)
    (hA1 : findAccount s1 A = some a1) (hB1 : findAccount s1 B = some b1)
    (hg1 : B ∈ a1.following) (hg2 : A ∈ b1.followers)
    (hca : a1.following.count B ≤ 1) (hcb : b1.followers.count A ≤ 1) :
    ∃ s2, unfollow_user A B s1 = some s2
      ∧ B ∉ followingOf s2 A ∧ A ∉ followersOf s2 B := by
  refine ⟨db_update_account B (fun a => { a with followers := b1.followers.erase A })
    (db_update_account A (fun a => { a with following := a1.following.erase B }) s1),
    ?_, ?_, ?_⟩
  · simp only [unfollow_user, hA1, hB1]
    rw [if_pos hg1, if_pos hg2]
  · obtain ⟨hf2, -⟩ := findAccount_two_updates A B hAB
      (fun a => { a with following := a1.following.erase B })
      (fun a => { a with followers := b1.followers.erase A })
      (fun a => rfl) (fun a => rfl) s1 a1 b1 hA1 hB1
    simp only [followingOf, hf2]
    show B ∉ a1.following.erase B
    have hone := List.one_le_count_iff.mpr hg1
    have hzero : (a1.following.erase B).count B = 0 := by
      rw [List.count_erase_self]; omega
    exact List.count_eq_zero.mp hzero
  · obtain ⟨-, hf2⟩ := findAccount_two_updates A B hAB
      (fun a => { a with following := a1.following.erase B })
      (fun a => { a with followers := b1.followers.erase A })
      (fun a => rfl) (fun a => rfl) s1 a1 b1 hA1 hB1
    simp only [followersOf, hf2]
    show A ∉ b1.followers.erase A
    have hone := List.one_le_count_iff.mpr hg2
    have hzero : (b1.followers.erase A).count A = 0 := by
      rw [List.count_erase_self]; omega
    exact List.count_eq_zero.mp hzero

/-- C1: for two distinct existing accounts in a consistent graph state
(a symmetric edge for the pair, each list holding the other handle at most
once), after `follow(A,B)` the handle `B` is in `A`'s following list and `A`
is in `B`'s followers list; a subsequent `unfollow(A,B)` succeeds and removes
both memberships. -/
theorem follow_unfollow_graph (now A B : String) (s : DB) (accA accB : Account)
    (hA : findAccount s A = some accA) (hB : findAccount s B = some accB)
    (hAB : A ≠ B)
    (hsym : B ∈ accA.following ↔ A ∈ accB.followers)
    (hcA : accA.following.count B ≤ 1) (hcB : accB.followers.count A ≤ 1) :
    (B ∈ followingOf (follow_user now A B s) A
      ∧ A ∈ followersOf (follow_user now A B s) B)
    ∧ ∃ s2, unfollow_user A B (follow_user now A B s) = some s2
        ∧ B ∉ followingOf s2 A ∧ A ∉ followersOf s2 B := by
  by_cases hmem : B ∈ accA.following
  · have hres : follow_user now A B s = s := by
      simp only [follow_user, hA, hB]
      rw [if_pos hmem]
    have hmemB : A ∈ accB.followers := hsym.mp hmem
    rw [hres]
    refine ⟨⟨?_, ?_⟩, ?_⟩
    · simp only [followingOf, hA]; exact hmem
    · simp only [followersOf, hB]; exact hmemB
    · exact unfollow_user_spec A B hAB s accA accB hA hB hmem hmemB hcA hcB
  · have hnmB : A ∉ accB.followers := fun hx => hmem (hsym.mpr hx)
    have hres : follow_user now A B s
        = add_notification now B ("@" ++ A ++ " started following you!")
            (some "profile") (some A)
            (db_update_account B
              (fun a => { a with followers := accB.followers ++ [A] })
              (db_update_account A
                (fun a => { a with following := accA.following ++ [B] }) s)) := by
      simp only [follow_user, hA, hB]
      rw [if_neg hmem]
    obtain ⟨hfA1, hfB1⟩ := findAccount_two_updates A B hAB
      (fun a => { a with following := accA.following ++ [B] })
      (fun a => { a with followers := accB.followers ++ [A] })
      (fun a => rfl) (fun a => rfl) s accA accB hA hB
    have hfA3 : findAccount (follow_user now A B s) A
        = some { accA with following := accA.following ++ [B] } := by
      rw [hres, findAccount_add_notification_other _ _ _ _ _ _ _ hAB]
      exact hfA1
    obtain ⟨n, hfB3⟩ := findAccount_add_notification_self now B
      ("@" ++ A ++ " started following you!") (some "profile") (some A) _ _ hfB1
    have hfB4 : findAccount (follow_user now A B s) B
        = some { accB with
                 followers := accB.followers ++ [A],
                 notifications := n } := by
      rw [hres]; exact hfB3
    have hg1 : B ∈ ({ accA with following := accA.following ++ [B] } : Account).following := by
      simp
    have hg2 : A ∈ ({ accB with
        followers := accB.followers ++ [A],
        notifications := n } : Account).followers := by
      simp
    have hca : ({ accA with following := accA.following ++ [B] } : Account).following.count B ≤ 1 := by
      show (accA.following ++ [B]).count B ≤ 1
      rw [List.count_append, List.count_eq_zero.mpr hmem]
      simp
    have hcb : ({ accB with
        followers := accB.followers ++ [A],
        notifications := n } : Account).followers.count A ≤ 1 := by
      show (accB.followers ++ [A]).count A ≤ 1
      rw [List.count_append, List.count_eq_zero.mpr hnmB]
      simp
    refine ⟨⟨?_, ?_⟩, ?_⟩
    · simp only [followingOf, hfA3]
      simp
    · simp only [followersOf, hfB4]
      simp
    · exact unfollow_user_spec A B hAB _ _ _ hfA3 hfB4 hg1 hg2 hca hcb

/-- Witness for `follow_unfollow_graph` at a concrete state: `bob` already
follows `alice` in `exDB`, so `follow(bob, alice)` keeps the edge and
`unfollow(bob, alice)` removes it on both sides. -/
theorem follow_unfollow_graph_witness :
    ("alice" ∈ followingOf (follow_user "t" "bob" "alice" exDB) "bob"
      ∧ "bob" ∈ followersOf (follow_user "t" "bob" "alice" exDB) "alice")
    ∧ ∃ s2, unfollow_user "bob" "alice" (follow_user "t" "bob" "alice" exDB) = some s2
        ∧ "alice" ∉ followingOf s2 "bob" ∧ "bob" ∉ followersOf s2 "alice" :=
  follow_unfollow_graph "t" "bob" "alice" exDB
    (mkAccount "bob" [] ["alice"]) (mkAccount "alice" ["bob"] [])
    (by decide) (by decide) (by decide) (by decide) (by decide) (by decide)

theorem distinctLikers_decomp (I1 I2 : List Interaction) (j : Interaction)
    (x : String) :
    distinctLikers (I1 ++ j :: I2) x
      = distinctLikers I1 x + distinctLikers I2 x
        + (if x ∈ j.likes then 1 else 0) := by
  rw [distinctLikers, List.countP_append, List.countP_cons, distinctLikers,
    distinctLikers]
  simp only [decide_eq_true_eq]
  omega

theorem consistent_insert_empty (u : String) (s : DB) (hs : Consistent s)
    (hI : s.interactions.find? (fun i => i.username == u) = none) :
    Consistent { s with interactions := s.interactions
        ++ [{ username := u, likes := [], saved := [] }] } := by
  obtain ⟨h1, h2, h3, h4⟩ := hs
  have hnotin : u ∉ s.interactions.map (fun i => i.username) := by
    intro hx
    obtain ⟨i, hiI, hieq⟩ := List.mem_map.mp hx
    have hni := List.find?_eq_none.mp hI i hiI
    simp [hieq] at hni
  refine ⟨?_, ?_, h3, ?_⟩
  · show ((s.interactions
        ++ [({ username := u, likes := [], saved := [] } : Interaction)]).map
      (fun i => i.username)).Nodup
    rw [List.map_append, List.nodup_append]
    refine ⟨h1, by simp, ?_⟩
    intro x hx hx2
    simp at hx2
    subst hx2
    exact hnotin hx
  · intro i hi
    rcases List.mem_append.mp hi with hi1 | hi2
    · exact h2 i hi1
    · simp at hi2
      subst hi2
      exact List.nodup_nil
  · intro v hv
    show v.likes = (distinctLikers (s.interactions
      ++ [({ username := u, likes := [], saved := [] } : Interaction)]) v.id : Int)
    rw [distinctLikers, List.countP_append]
    have hz : List.countP (fun (i : Interaction) => decide (v.id ∈ i.likes))
        [({ username := u, likes := [], saved := [] } : Interaction)] = 0 := by simp
    rw [hz, Nat.add_zero]
    exact h4 v hv

theorem consistent_like_update (u vid : String) (inter : Interaction)
    (s sMid : DB) (video : Video) (L2 : List String) (c2 : Int)
    (hmidI : sMid.interactions = s.interactions)
    (hmidV : sMid.videos = s.videos)
    (hs : Consistent s)
    (hI : s.interactions.find? (fun i => i.username == u) = some inter)
    (hv : s.videos.find? (fun v => v.id == vid) = some video)
    (hL2nodup : L2.Nodup)
    (hLiff : ∀ x, x ≠ vid → (x ∈ L2 ↔ x ∈ inter.likes))
    (hc2 : c2 = video.likes - (if vid ∈ inter.likes then 1 else 0)
        + (if vid ∈ L2 then 1 else 0)) :
    Consistent (db_update_video vid (fun v => { v with likes := c2 })
      (db_update_interaction u (fun i => { i with likes := L2 }) sMid)) := by
  obtain ⟨h1, h2, h3, h4⟩ := hs
  obtain ⟨I1, I2, hIeq, hI1, hIupd⟩ := updateFirst_decomp hI
  obtain ⟨V1, V2, hVeq, hV1, hVupd⟩ := updateFirst_decomp hv
  have hvid : video.id = vid := by simpa using List.find?_some hv
  have hInew : (db_update_video vid (fun v => { v with likes := c2 })
      (db_update_interaction u (fun i => { i with likes := L2 }) sMid)).interactions
      = I1 ++ { inter with likes := L2 } :: I2 := by
    rw [db_update_video_interactions]
    show updateFirst (fun i => i.username == u)
      (fun (i : Interaction) => { i with likes := L2 }) sMid.interactions = _
    rw [hmidI]
    exact hIupd _
  have hVnew : (db_update_video vid (fun v => { v with likes := c2 })
      (db_update_interaction u (fun i => { i with likes := L2 }) sMid)).videos
      = V1 ++ { video with likes := c2 } :: V2 := by
    show updateFirst (fun v => v.id == vid)
      (fun (v : Video) => { v with likes := c2 })
      (db_update_interaction u (fun i => { i with likes := L2 }) sMid).videos = _
    rw [db_update_interaction_videos, hmidV]
    exact hVupd _
  -- counts over the updated ledger
  have hnew : ∀ x, distinctLikers (I1 ++ { inter with likes := L2 } :: I2) x
      = distinctLikers I1 x + distinctLikers I2 x + (if x ∈ L2 then 1 else 0) := by
    intro x
    rw [distinctLikers_decomp]
  have hold : ∀ x, distinctLikers s.interactions x
      = distinctLikers I1 x + distinctLikers I2 x
        + (if x ∈ inter.likes then 1 else 0) := by
    intro x
    rw [hIeq, distinctLikers_decomp]
  have hsame : ∀ x, x ≠ vid →
      distinctLikers (I1 ++ { inter with likes := L2 } :: I2) x
        = distinctLikers s.interactions x := by
    intro x hx
    rw [hnew, hold]
    have := hLiff x hx
    by_cases hxl : x ∈ L2
    · rw [if_pos hxl, if_pos (this.mp hxl)]
    · rw [if_neg hxl, if_neg (fun hmm => hxl (this.mpr hmm))]
  refine ⟨?_, ?_, ?_, ?_⟩
  · rw [hInew]
    have hmapeq : (I1 ++ { inter with likes := L2 } :: I2).map (fun i => i.username)
        = (I1 ++ inter :: I2).map (fun i => i.username) := by simp
    rw [hmapeq, ← hIeq]
    exact h1
  · rw [hInew]
    intro i hi
    rcases List.mem_append.mp hi with hi1 | hi2
    · exact h2 i (by rw [hIeq]; exact List.mem_append.mpr (Or.inl hi1))
    · rcases List.mem_cons.mp hi2 with rfl | hi3
      · exact hL2nodup
      · exact h2 i (by rw [hIeq]; exact List.mem_append.mpr (Or.inr (List.mem_cons.mpr (Or.inr hi3))))
  · rw [hVnew]
    have hmapeq : (V1 ++ { video with likes := c2 } :: V2).map (fun v => v.id)
        = (V1 ++ video :: V2).map (fun v => v.id) := by simp
    rw [hmapeq, ← hVeq]
    exact h3
  · rw [hVnew, hInew]
    have hvc : video.likes = (distinctLikers s.interactions vid : Int) := by
      have hmemv : video ∈ s.videos := by
        rw [hVeq]
        exact List.mem_append.mpr (Or.inr (List.mem_cons.mpr (Or.inl rfl)))
      have := h4 video hmemv
      rwa [hvid] at this
    intro w hw
    rcases List.mem_append.mp hw with hw1 | hw2
    · have hwid : w.id ≠ vid := by
        have := hV1 w hw1
        simpa using this
      have hwmem : w ∈ s.videos := by
        rw [hVeq]; exact List.mem_append.mpr (Or.inl hw1)
      rw [hsame w.id hwid]
      exact h4 w hwmem
    · rcases List.mem_cons.mp hw2 with rfl | hw3
      · show c2 = (distinctLikers (I1 ++ { inter with likes := L2 } :: I2)
          ({ video with likes := c2 } : Video).id : Int)
        have hwid : ({ video with likes := c2 } : Video).id = vid := hvid
        rw [hwid, hnew vid, hc2, hvc, hold vid]
        by_cases hmi : vid ∈ inter.likes <;> by_cases hmL : vid ∈ L2 <;>
          simp [hmi, hmL]
      · have hwid : w.id ≠ vid := by
          have hnd := h3
          rw [hVeq, List.map_append, List.map_cons, List.nodup_append] at hnd
          have hvnotin : video.id ∉ V2.map (fun v => v.id) :=
            (List.nodup_cons.mp hnd.2.1).1
          intro hxeq
          exact hvnotin (by
            rw [← hvid] at hxeq
            exact hxeq ▸ List.mem_map.mpr ⟨w, hw3, rfl⟩)
        have hwmem : w ∈ s.videos := by
          rw [hVeq]
          exact List.mem_append.mpr (Or.inr (List.mem_cons.mpr (Or.inr hw3)))
        rw [hsame w.id hwid]
        exact h4 w hwmem

theorem consistent_toggle_body (now u vid : String) (inter : Interaction)
    (s : DB) (hs : Consistent s)
    (hI : s.interactions.find? (fun i => i.username == u) = some inter) :
    Consistent (toggle_like_body now u vid inter s) := by
  cases hv : s.videos.find? (fun v => v.id == vid) with
  | none =>
    rw [toggle_like_body_of_no_video now u vid inter s hv]
    exact hs
  | some video =>
    have hnodup : inter.likes.Nodup := hs.2.1 inter (List.mem_of_find?_eq_some hI)
    by_cases hm : vid ∈ inter.likes
    · have hpos : 0 < distinctLikers s.interactions vid := by
        rw [distinctLikers]
        exact List.countP_pos_iff.mpr
          ⟨inter, List.mem_of_find?_eq_some hI, by simp [hm]⟩
      have hvc : video.likes = (distinctLikers s.interactions vid : Int) := by
        have hvid : video.id = vid := by simpa using List.find?_some hv
        have hmemv : video ∈ s.videos := List.mem_of_find?_eq_some hv
        have hx := hs.2.2.2 video hmemv
        rwa [hvid] at hx
      have hbody : toggle_like_body now u vid inter s
          = db_update_video vid
              (fun v => { v with likes := max 0 (video.likes - 1) })
              (db_update_interaction u
                (fun i => { i with likes := inter.likes.erase vid }) s) := by
        simp only [toggle_like_body, hv]
        rw [if_pos hm]
      rw [hbody]
      apply consistent_like_update u vid inter s s video _ _ rfl rfl hs hI hv
      · exact List.Nodup.erase vid hnodup
      · intro x hx
        exact List.mem_erase_of_ne hx
      · have hnm : vid ∉ inter.likes.erase vid := by
          intro hx
          exact ((hnodup.mem_erase_iff.mp hx).1) rfl
        rw [if_pos hm, if_neg hnm, hvc]
        have hone : (1 : Int) ≤ (distinctLikers s.interactions vid : Int) := by
          exact_mod_cast hpos
        omega
    · have hbody : toggle_like_body now u vid inter s
          = db_update_video vid (fun v => { v with likes := video.likes + 1 })
              (db_update_interaction u
                (fun i => { i with likes := inter.likes ++ [vid] })
                (if video.username ≠ u then
                  add_notification now video.username
                    ("@" ++ u ++ " liked your video!") (some "video") (some vid) s
                 else s)) := by
        simp only [toggle_like_body, hv]
        rw [if_neg hm]
      rw [hbody]
      have hs2i : (if video.username ≠ u then
          add_notification now video.username
            ("@" ++ u ++ " liked your video!") (some "video") (some vid) s
          else s).interactions = s.interactions := by
        split
        · exact add_notification_interactions _ _ _ _ _ _
        · rfl
      have hs2v : (if video.username ≠ u then
          add_notification now video.username
            ("@" ++ u ++ " liked your video!") (some "video") (some vid) s
          else s).videos = s.videos := by
        split
        · exact add_notification_videos _ _ _ _ _ _
        · rfl
      apply consistent_like_update u vid inter s _ video _ _ hs2i hs2v hs hI hv
      · rw [List.nodup_append]
        refine ⟨hnodup, List.nodup_singleton _, ?_⟩
        intro x hx hx2
        simp at hx2
        subst hx2
        exact hm hx
      · intro x hx
        simp [List.mem_append, hx]
      · have hin : vid ∈ inter.likes ++ [vid] := by simp
        rw [if_neg hm, if_pos hin]
        omega

theorem consistent_toggle_like (now u vid : String) (s : DB)
    (hs : Consistent s) : Consistent (toggle_like now u vid s) := by
  cases hI : s.interactions.find? (fun i => i.username == u) with
  | some inter =>
    have hbody : toggle_like now u vid s = toggle_like_body now u vid inter s := by
      simp only [toggle_like, hI]
    rw [hbody]
    exact consistent_toggle_body now u vid inter s hs hI
  | none =>
    have hbody : toggle_like now u vid s
        = toggle_like_body now u vid { username := u, likes := [], saved := [] }
            { s with interactions := s.interactions
                ++ [{ username := u, likes := [], saved := [] }] } := by
      simp only [toggle_like, hI]
    have hI2 : ({ s with interactions := s.interactions
          ++ [{ username := u, likes := [], saved := [] }] } : DB).interactions.find?
            (fun i => i.username == u)
        = some { username := u, likes := [], saved := [] } := by
      show (s.interactions
          ++ [({ username := u, likes := [], saved := [] } : Interaction)]).find?
        (fun i => i.username == u) = _
      rw [List.find?_append, hI]
      simp [List.find?_cons]
    rw [hbody]
    exact consistent_toggle_body now u vid _ _
      (consistent_insert_empty u s hs hI) hI2

/-- C5: starting from a consistent state (like counters equal the number of
distinct liking accounts), after any sequence of `toggle_like` calls every
content item's like counter is non-negative and bounded by the number of
distinct accounts whose liked set contains its identifier (in fact the two
stay equal). -/
theorem like_counter_bounds (s : DB) (hs : Consistent s)
    (ops : List (String × String × String)) :
    ∀ v ∈ (applyToggles ops s).videos,
      0 ≤ v.likes
      ∧ v.likes ≤ (distinctLikers (applyToggles ops s).interactions v.id : Int) := by
  have hcons : Consistent (applyToggles ops s) := by
    induction ops generalizing s with
    | nil => exact hs
    | cons op rest ih =>
      exact ih (toggle_like op.1 op.2.1 op.2.2 s)
        (consistent_toggle_like op.1 op.2.1 op.2.2 s hs)
  intro v hv
  have hc := hcons.2.2.2 v hv
  constructor
  · rw [hc]
    exact Int.natCast_nonneg _
  · rw [hc]

/-- Witness for `like_counter_bounds` at a concrete consistent state with a
concrete operation sequence (a fresh like, a remove, and a like by an
account with no ledger entry yet). -/
theorem like_counter_bounds_witness :
    Consistent exDB
    ∧ ∀ v ∈ (applyToggles
        [("t1", "bob", "v2"), ("t2", "bob", "v1"), ("t3", "alice", "v2")]
        exDB).videos,
      0 ≤ v.likes
      ∧ v.likes ≤ (distinctLikers (applyToggles
          [("t1", "bob", "v2"), ("t2", "bob", "v1"), ("t3", "alice", "v2")]
          exDB).interactions v.id : Int) :=
  ⟨by unfold Consistent; decide, like_counter_bounds exDB
    (by unfold Consistent; decide)
    [("t1", "bob", "v2"), ("t2", "bob", "v1"), ("t3", "alice", "v2")]⟩
